import Mathlib

/-!
Verification development for the aggregation and normalization pipeline of
`src/streamlit_app.py` (option-chain CE/PE comparison app).

Modelling conventions:
* numeric CSV cells are `Option ℚ`, with `none` for a missing value (NaN);
  floating point is idealized as exact arithmetic;
* the z-score layer lives in `ℝ` because the standard deviation is a square
  root; everything before it is executable over `ℚ`;
* `datetime.now()` fallbacks are represented by `Option.none` from the
  resolver, materialized by an ambient `now : ℕ → DateTime` function (one
  sample per loaded file), since the wall clock is outside the program;
* Streamlit `st.error`/`st.stop` aborts are an `Except` error value, and an
  uncaught Python exception (e.g. `KeyError`) is the distinguished error
  `BatchError.uncaught`.
-/

attribute [local semireducible] Rat.add Rat.mul Rat.inv Rat.sub

/-- Calendar timestamp as produced by `datetime.strptime`: a plain record of
the six components. -/
structure DateTime where
  year : ℕ
  month : ℕ
  day : ℕ
  hour : ℕ
  minute : ℕ
  second : ℕ
deriving DecidableEq

/-- Monotone encoding of a timestamp used for chronological comparison.  For
components in calendar range this agrees with the lexicographic
(year, month, day, hour, minute, second) order, which is how Python compares
`datetime` values. -/
def DateTime.key (t : DateTime) : ℕ :=
  ((((t.year * 13 + t.month) * 32 + t.day) * 24 + t.hour) * 60 + t.minute) * 60 + t.second

/-- Numeric value of a decimal digit character. -/
def digitVal (c : Char) : ℕ := c.toNat - 48

/-- Decimal digit test (`\d` of the CPython `_strptime` regexes). -/
def isDigitCh (c : Char) : Bool := decide (48 ≤ c.toNat) && decide (c.toNat ≤ 57)

/-- Digit in `1`-`9` (`[1-9]`). -/
def isDigit19 (c : Char) : Bool := decide (49 ≤ c.toNat) && decide (c.toNat ≤ 57)

/-- Digit in `0`-`5` (`[0-5]`). -/
def isDigit05 (c : Char) : Bool := decide (48 ≤ c.toNat) && decide (c.toNat ≤ 53)

/-- Match two characters constrained by two predicates, returning the
two-digit value and the remaining input. -/
def twoDigits (p1 p2 : Char → Bool) : List Char → Option (ℕ × List Char)
  | c1 :: c2 :: rest =>
    if p1 c1 && p2 c2 then some (digitVal c1 * 10 + digitVal c2, rest) else none
  | _ => none

/-- Match one character constrained by a predicate, returning its value and
the remaining input. -/
def oneDigit (p : Char → Bool) : List Char → Option (ℕ × List Char)
  | c :: rest => if p c then some (digitVal c, rest) else none
  | _ => none

/-- Alternatives of the `%d` pattern of CPython `_strptime`
(`3[01]|[12]\d|0[1-9]|[1-9]`), in the order the regex engine tries them. -/
def dayAlts (s : List Char) : List (ℕ × List Char) :=
  (twoDigits (· == '3') (fun c => c == '0' || c == '1') s).toList ++
  (twoDigits (fun c => c == '1' || c == '2') isDigitCh s).toList ++
  (twoDigits (· == '0') isDigit19 s).toList ++
  (oneDigit isDigit19 s).toList

/-- Alternatives of the `%m` pattern (`1[0-2]|0[1-9]|[1-9]`). -/
def monthAlts (s : List Char) : List (ℕ × List Char) :=
  (twoDigits (· == '1') (fun c => decide (48 ≤ c.toNat) && decide (c.toNat ≤ 50)) s).toList ++
  (twoDigits (· == '0') isDigit19 s).toList ++
  (oneDigit isDigit19 s).toList

/-- Alternatives of the `%H` pattern (`2[0-3]|[0-1]\d|\d`). -/
def hourAlts (s : List Char) : List (ℕ × List Char) :=
  (twoDigits (· == '2') (fun c => decide (48 ≤ c.toNat) && decide (c.toNat ≤ 51)) s).toList ++
  (twoDigits (fun c => c == '0' || c == '1') isDigitCh s).toList ++
  (oneDigit isDigitCh s).toList

/-- Alternatives of the `%M` pattern (`[0-5]\d|\d`). -/
def minuteAlts (s : List Char) : List (ℕ × List Char) :=
  (twoDigits isDigit05 isDigitCh s).toList ++ (oneDigit isDigitCh s).toList

/-- Alternatives of the `%S` pattern (`6[0-1]|[0-5]\d|\d`; leap seconds are
accepted by the regex and rejected later by the `datetime` constructor). -/
def secondAlts (s : List Char) : List (ℕ × List Char) :=
  (twoDigits (· == '6') (fun c => c == '0' || c == '1') s).toList ++
  (twoDigits isDigit05 isDigitCh s).toList ++
  (oneDigit isDigitCh s).toList

/-- The `%Y` pattern: exactly four digits. -/
def yearDigits : List Char → Option (ℕ × List Char)
  | c1 :: c2 :: c3 :: c4 :: rest =>
    if isDigitCh c1 && isDigitCh c2 && isDigitCh c3 && isDigitCh c4 then
      some (((digitVal c1 * 10 + digitVal c2) * 10 + digitVal c3) * 10 + digitVal c4, rest)
    else none
  | _ => none

/-- Gregorian leap-year test as in Python's `calendar.isleap`. -/
def isLeap (y : ℕ) : Bool := (y % 4 == 0 && y % 100 != 0) || y % 400 == 0

/-- Number of days of a month, as validated by the `datetime` constructor. -/
def daysInMonth (y m : ℕ) : ℕ :=
  if m == 2 then (if isLeap y then 29 else 28)
  else if m == 4 || m == 6 || m == 9 || m == 11 then 30
  else 31

/-- Validation performed by the `datetime` constructor on the matched
components: year at least 1, day in range for the month, second at most 59
(the `%S` regex also admits 60 and 61, which `datetime` rejects). -/
def validDateTime (t : DateTime) : Bool :=
  decide (1 ≤ t.year) && decide (1 ≤ t.day) && decide (t.day ≤ daysInMonth t.year t.month) &&
  decide (t.second ≤ 59)

/-- Embedding of `datetime.strptime(s, "%d%m%Y_%H%M%S")`: the fixed regex
with leftmost-alternative preference and full backtracking, requiring the
whole input to be consumed, followed by `datetime` construction. -/
def strptimeDMYHMS (s : List Char) : Option DateTime :=
  (dayAlts s).findSome? fun dp =>
    (monthAlts dp.2).findSome? fun mp =>
      match yearDigits mp.2 with
      | none => none
      | some yp =>
        match yp.2 with
        | '_' :: s4 =>
          (hourAlts s4).findSome? fun hp =>
            (minuteAlts hp.2).findSome? fun minp =>
              (secondAlts minp.2).findSome? fun secp =>
                if secp.2.isEmpty then
                  let t : DateTime := ⟨yp.1, mp.1, dp.1, hp.1, minp.1, secp.1⟩
                  if validDateTime t then some t else none
                else none
        | _ => none

/-- Python `name.replace(".csv", "")`: removes every occurrence of the
substring `.csv`, scanning left to right — not only a trailing suffix. -/
def removeCsv : List Char → List Char
  | '.' :: 'c' :: 's' :: 'v' :: rest => removeCsv rest
  | c :: rest => c :: removeCsv rest
  | [] => []

/-- Python `base.split("_")`: split on underscore, keeping empty pieces
(`"".split("_") == [""]`). -/
def splitU : List Char → List (List Char)
  | [] => [[]]
  | '_' :: rest => [] :: splitU rest
  | c :: rest =>
    match splitU rest with
    | t :: ts => (c :: t) :: ts
    | [] => [[c]]

/-- Embedding of `extract_timestamp` (src/streamlit_app.py lines 22-30):
`base = name.replace(".csv", "")`, then
`strptime(base.split("_")[-2] + "_" + base.split("_")[-1], "%d%m%Y_%H%M%S")`.
Fewer than two tokens raises `IndexError`, a failed parse raises
`ValueError`; both are caught and answered with `datetime.now()`.  The
fallback is represented by `none` (the caller substitutes a wall-clock
sample); a successful parse is `some`. -/
def extract_timestamp (name : String) : Option DateTime :=
  let toks := splitU (removeCsv name.data)
  if toks.length < 2 then none
  else
    match toks[toks.length - 2]?, toks[toks.length - 1]? with
    | some t2, some t1 => strptimeDMYHMS (t2 ++ ('_' :: t1))
    | _, _ => none

example : extract_timestamp "chain_01012020_120000.csv" = some ⟨2020, 1, 1, 12, 0, 0⟩ := by
  decide

example : extract_timestamp "nodate.csv" = none := by decide

example : extract_timestamp "chain_31022020_120000.csv" = none := by decide

/-- One CSV row, restricted to the four columns the pipeline reads.  Each
cell is `Option ℚ`; `none` is a NaN cell. -/
structure Row where
  ce_strike : Option ℚ
  ce_oi : Option ℚ
  ce_last : Option ℚ
  pe_last : Option ℚ
deriving DecidableEq

/-- One parsed DataFrame.  The four Booleans record which of the relevant
columns are present; accessing an absent column raises `KeyError` in
pandas, which the pipeline models as an uncaught error.  When a column is
absent the corresponding `Row` fields are never consulted. -/
structure Frame where
  hasStrike : Bool
  hasOI : Bool
  hasCELast : Bool
  hasPELast : Bool
  rows : List Row
deriving DecidableEq

/-- One uploaded file: its name, and the outcome of `safe_read` followed by
the `df.empty` test.  `content = none` models `safe_read` returning `None`
(empty or whitespace-only bytes, or a `pd.read_csv` failure). -/
structure InFile where
  name : String
  content : Option Frame
deriving DecidableEq

/-- Frame together with the timestamp attached by the loading loop
(`df["timestamp"] = extract_timestamp(f.name)`). -/
structure TFrame where
  frame : Frame
  ts : DateTime
deriving DecidableEq

/-- One row of the `summary` list (an AggregateRecord before
normalization): `{"timestamp": ts, "Avg_CE": avg_ce, "Avg_PE": avg_pe}`. -/
structure AggRec where
  ts : DateTime
  avgCE : Option ℚ
  avgPE : Option ℚ
deriving DecidableEq

/-- How the batch computation can stop early.  The first two correspond to
`st.error(...)` followed by `st.stop()`; `uncaught` is an unhandled Python
exception escaping the script (pandas `KeyError`). -/
inductive BatchError where
  | noValidData
  | missingColumns
  | uncaught
deriving DecidableEq

/-- Message of the descriptive errors the script surfaces via `st.error`;
an uncaught exception has none. -/
def BatchError.message : BatchError → Option String
  | .noValidData => some "No valid CSV data found."
  | .missingColumns => some "Missing expected columns in CSV."
  | .uncaught => none

/-- Defined (non-NaN) values of a column. -/
def definedVals (xs : List (Option ℚ)) : List ℚ := xs.filterMap id

/-- Pandas `Series.mean()`: arithmetic mean of the defined values (`skipna`
default), NaN when every value is missing. -/
def nanmean (xs : List (Option ℚ)) : Option ℚ :=
  if definedVals xs = [] then none
  else some ((definedVals xs).sum / ((definedVals xs).length : ℚ))

/-- Whether the file survives loading: `safe_read` produced a frame and the
frame has at least one row (`df.empty` is false). -/
def keepsFile (f : InFile) : Bool :=
  match f.content with
  | none => false
  | some fr => !fr.rows.isEmpty

/-- Loading loop (src/streamlit_app.py lines 44-50).  Returns the surviving
timestamped frames in upload order together with the warnings the loop
records — the code records none: a file rejected by `safe_read`/`df.empty`
is skipped silently.  `now i` is the wall-clock sample used if the `i`-th
file's name does not parse. -/
def loadFramesW (now : ℕ → DateTime) : ℕ → List InFile → List TFrame × List String
  | _, [] => ([], [])
  | i, f :: fs =>
    let rest := loadFramesW now (i + 1) fs
    match f.content with
    | none => (rest.1, rest.2)
    | some fr =>
      if fr.rows.isEmpty then (rest.1, rest.2)
      else (⟨fr, (extract_timestamp f.name).getD (now i)⟩ :: rest.1, rest.2)

/-- Distinct non-NaN values of `CE_strikePrice`, in ascending order: the
group keys of `first_df.groupby("CE_strikePrice")` (pandas sorts group keys
and drops NaN keys). -/
def distinctStrikes (rows : List Row) : List ℚ :=
  List.insertionSort (· ≤ ·) (rows.filterMap (·.ce_strike)).dedup

/-- Mean open interest of one strike group:
`groupby("CE_strikePrice")["CE_openInterest"].mean()` for one key —
the mean skips NaN cells and is NaN when the whole group is NaN. -/
def meanOI (rows : List Row) (k : ℚ) : Option ℚ :=
  nanmean ((rows.filter (fun r => r.ce_strike = some k)).map (·.ce_oi))

/-- The grouped series: ascending group keys, each with its mean open
interest. -/
def groupMeans (rows : List Row) : List (ℚ × Option ℚ) :=
  (distinctStrikes rows).map (fun k => (k, meanOI rows k))

/-- Descending-by-open-interest comparison used to sort the grouped
series. -/
def oiGe (a b : ℚ × ℚ) : Prop := b.2 ≤ a.2

instance : DecidableRel oiGe := fun a b => inferInstanceAs (Decidable (b.2 ≤ a.2))

instance : IsTotal (ℚ × ℚ) oiGe := ⟨fun a b => le_total b.2 a.2⟩

instance : IsTrans (ℚ × ℚ) oiGe := ⟨fun _ _ _ h1 h2 => le_trans h2 h1⟩

/-- Grouped entries whose mean open interest is defined, as key/mean pairs
(pandas `nargsort` separates the NaN entries before sorting). -/
def definedPart (rows : List Row) : List (ℚ × ℚ) :=
  (groupMeans rows).filterMap (fun p => p.2.map (fun m => (p.1, m)))

/-- Group keys whose mean open interest is NaN, in original (ascending key)
order; `nargsort` appends them after the sorted part. -/
def undefPart (rows : List Row) : List ℚ :=
  ((groupMeans rows).filter (fun p => p.2.isNone)).map (·.1)

/-- Embedding of `top_strikes` (src/streamlit_app.py lines 62-68):
`groupby("CE_strikePrice")["CE_openInterest"].mean()` (keys ascending, NaN
keys dropped), `.sort_values(ascending=False)`, then
`.head(num_strikes).index.tolist()`.  Pandas `nargsort` removes the NaN
entries, reverses, argsorts ascending with numpy quicksort, reverses
again, and appends the NaN entries at the end; only "means non-increasing,
NaN groups last" is guaranteed — numpy quicksort is NOT stable (partitions
longer than 16 elements permute tied groups), so the program's order among
equal means is unspecified.  This definition refines that unspecified tie
order with a stable insertion sort over the ascending-key group list.  The
refinement is exact whenever at most 16 distinct strikes are grouped
(numpy's introsort is then a single insertion-sort pass, which is stable,
and the double reversal preserves the ascending-key order among ties) — in
particular on every concrete snapshot in this file — and the selector
theorem `top_strikes_spec` claims no tie order, so it holds of the real
program for every input. -/
def top_strikes (f : Frame) (n : ℕ) : List ℚ :=
  (((List.insertionSort oiGe (definedPart f.rows)).map (·.1)) ++ undefPart f.rows).take n

/-- The `isin` filter: rows whose `CE_strikePrice` lies in the strike list
(a NaN strike is in no list). -/
def subsetRows (rows : List Row) (strikes : List ℚ) : List Row :=
  rows.filter (fun r =>
    match r.ce_strike with
    | some k => decide (k ∈ strikes)
    | none => false)

/-- One iteration of the summary loop (src/streamlit_app.py lines 76-83):
filter to the reference strikes; an empty subset is skipped (`continue`)
before any price column is touched; otherwise the two price columns are
read — `KeyError` (uncaught) if absent — and averaged with NaN skipped. -/
def processFrame (tf : TFrame) (strikes : List ℚ) : Except BatchError (Option AggRec) :=
  if tf.frame.hasStrike then
    if (subsetRows tf.frame.rows strikes).isEmpty then .ok none
    else if tf.frame.hasCELast then
      if tf.frame.hasPELast then
        .ok (some ⟨tf.ts, nanmean ((subsetRows tf.frame.rows strikes).map (·.ce_last)),
          nanmean ((subsetRows tf.frame.rows strikes).map (·.pe_last))⟩)
      else .error .uncaught
    else .error .uncaught
  else .error .uncaught

/-- The summary loop over all frames, also carrying the warnings it records
(none: the `continue` on an excluded snapshot is silent). -/
def summaryLoopW (frames : List TFrame) (strikes : List ℚ) :
    Except BatchError (List AggRec) × List String :=
  match frames with
  | [] => (.ok [], [])
  | tf :: rest =>
    match processFrame tf strikes with
    | .error e => (.error e, [])
    | .ok none => summaryLoopW rest strikes
    | .ok (some r) =>
      match summaryLoopW rest strikes with
      | (.error e, w) => (.error e, w)
      | (.ok recs, w) => (.ok (r :: recs), w)

/-- Chronological comparison of aggregate records. -/
def recLe (a b : AggRec) : Prop := a.ts.key ≤ b.ts.key

instance : DecidableRel recLe := fun a b => inferInstanceAs (Decidable (a.ts.key ≤ b.ts.key))

instance : IsTotal AggRec recLe := ⟨fun a b => Nat.le_total a.ts.key b.ts.key⟩

instance : IsTrans AggRec recLe := ⟨fun _ _ _ h1 h2 => Nat.le_trans h1 h2⟩

/-- The whole batch computation up to the sorted record list
(src/streamlit_app.py lines 44-85), with the warnings surfaced along the
way.  `pd.DataFrame([]).sort_values("timestamp")` on an empty summary
raises `KeyError` — an uncaught exception, not a descriptive error. -/
def runPipeline (now : ℕ → DateTime) (numStrikes : ℕ) (files : List InFile) :
    Except BatchError (List AggRec) × List String :=
  match (loadFramesW now 0 files).1 with
  | [] => (.error .noValidData, (loadFramesW now 0 files).2)
  | first :: rest =>
    if first.frame.hasStrike && first.frame.hasOI then
      match summaryLoopW (first :: rest) (top_strikes first.frame numStrikes) with
      | (.error e, w2) => (.error e, (loadFramesW now 0 files).2 ++ w2)
      | (.ok [], w2) => (.error .uncaught, (loadFramesW now 0 files).2 ++ w2)
      | (.ok recs, w2) =>
        (.ok (List.insertionSort recLe recs), (loadFramesW now 0 files).2 ++ w2)
    else (.error .missingColumns, (loadFramesW now 0 files).2)

instance {ε α : Type} [DecidableEq ε] [DecidableEq α] : DecidableEq (Except ε α) :=
  fun a b =>
    match a, b with
    | .error e, .error f =>
      if h : e = f then .isTrue (by rw [h]) else .isFalse (fun hc => h (Except.error.inj hc))
    | .ok x, .ok y =>
      if h : x = y then .isTrue (by rw [h]) else .isFalse (fun hc => h (Except.ok.inj hc))
    | .error _, .ok _ => .isFalse (fun hc => Except.noConfusion hc)
    | .ok _, .error _ => .isFalse (fun hc => Except.noConfusion hc)

/-- NaN-propagating subtraction on optional reals, the elementwise behavior
of the pandas column subtraction `avg_df["CE_norm"] - avg_df["PE_norm"]`. -/
def psubR (a b : Option ℝ) : Option ℝ :=
  match a, b with
  | some x, some y => some (x - y)
  | _, _ => none

/-- Population variance of a column: mean of squared deviations of the
defined values (denominator = count of defined values, pandas `ddof=0`
with `skipna`), NaN when every value is missing. -/
def nanvar (xs : List (Option ℚ)) : Option ℚ :=
  match nanmean xs with
  | none => none
  | some m =>
    some (((definedVals xs).map (fun v => (v - m) ^ 2)).sum / ((definedVals xs).length : ℚ))

/-- Pandas `Series.std(ddof=0)`: square root of the population variance. -/
noncomputable def nanstd (xs : List (Option ℚ)) : Option ℝ :=
  (nanvar xs).map (fun q => Real.sqrt (q : ℝ))

/-- One cell of `(series - series.mean()) / series.std(ddof=0)`.  A NaN
cell, mean or std propagates to NaN.  When the std is zero, every defined
cell equals the mean (`definedVals_eq_mean_of_nanstd_zero` below), so the
IEEE division is 0/0 = NaN; the zero-divisor branch therefore returns
`none`, and an infinite quotient is unreachable. -/
noncomputable def znormValue (xs : List (Option ℚ)) (x : Option ℚ) : Option ℝ :=
  match x with
  | none => none
  | some v =>
    match nanmean xs, nanstd xs with
    | some m, some s => if s = 0 then none else some (((v - m : ℚ) : ℝ) / s)
    | _, _ => none

/-- The full normalized column (src/streamlit_app.py lines 88-89). -/
noncomputable def znormSeries (xs : List (Option ℚ)) : List (Option ℝ) :=
  xs.map (znormValue xs)

/-- Two-digit zero-padded decimal rendering (strftime `%m`, `%d`, `%H`,
`%M`, `%S`). -/
def pad2 (n : ℕ) : String := if n < 10 then "0" ++ toString n else toString n

/-- Four-digit zero-padded decimal rendering (strftime `%Y`). -/
def pad4 (n : ℕ) : String :=
  if n < 10 then "000" ++ toString n
  else if n < 100 then "00" ++ toString n
  else if n < 1000 then "0" ++ toString n
  else toString n

/-- strftime `"%Y-%m-%d %H:%M:%S"` (the `timestamp_str` column). -/
def fmtFull (t : DateTime) : String :=
  pad4 t.year ++ "-" ++ pad2 t.month ++ "-" ++ pad2 t.day ++ " " ++
  pad2 t.hour ++ ":" ++ pad2 t.minute ++ ":" ++ pad2 t.second

/-- strftime `"%H:%M:%S"` (the `time_str` column). -/
def fmtTime (t : DateTime) : String :=
  pad2 t.hour ++ ":" ++ pad2 t.minute ++ ":" ++ pad2 t.second

/-- One row of the final table `avg_df`, after normalization and the two
display strings are attached. -/
structure OutRow where
  ts : DateTime
  tsStr : String
  timeStr : String
  avgCE : Option ℚ
  avgPE : Option ℚ
  ceNorm : Option ℝ
  peNorm : Option ℝ
  diffNorm : Option ℝ

/-- Normalization and display-string stage (src/streamlit_app.py lines
88-94) applied to the sorted records: each record receives the z-scores of
its two averages against the whole columns, and
`Diff_norm = CE_norm - PE_norm` elementwise. -/
noncomputable def assembleRows (recs : List AggRec) : List OutRow :=
  let ces := recs.map (·.avgCE)
  let pes := recs.map (·.avgPE)
  recs.map (fun r =>
    let c := znormValue ces r.avgCE
    let p := znormValue pes r.avgPE
    ⟨r.ts, fmtFull r.ts, fmtTime r.ts, r.avgCE, r.avgPE, c, p, psubR c p⟩)

/-- Whole pipeline including the normalization/assembly stage; an error
produces no table at all. -/
noncomputable def pipelineRows (now : ℕ → DateTime) (numStrikes : ℕ) (files : List InFile) :
    Except BatchError (List OutRow) :=
  ((runPipeline now numStrikes files).1).map assembleRows

/-- One rendered cell of the summary table. -/
inductive Cell where
  | str : String → Cell
  | rat : Option ℚ → Cell
  | real : Option ℝ → Cell

/-- The internal column selection `cols` (src/streamlit_app.py line 160). -/
def colOrder : List String :=
  ["timestamp_str", "time_str", "Avg_CE", "Avg_PE", "CE_norm", "PE_norm", "Diff_norm"]

/-- The `rename` mapping applied to `cols` (lines 161-171).  The renamed
headers contain U+202F narrow no-break spaces and, in the last one, a
U+2011 non-breaking hyphen, exactly as in the source. -/
def renameCol (s : String) : String :=
  if s = "timestamp_str" then "Timestamp"
  else if s = "time_str" then "Time"
  else if s = "Avg_CE" then "Avg CE"
  else if s = "Avg_PE" then "Avg PE"
  else if s = "CE_norm" then "Norm CE"
  else if s = "PE_norm" then "Norm PE"
  else if s = "Diff_norm" then "Norm Diff (CE‑PE)"
  else s

/-- Displayed column headers of the `show` table, in order. -/
def outputColumns : List String := colOrder.map renameCol

/-- Cells of one data row of the `show` table, in the column order of
`colOrder`. -/
def rowCells (r : OutRow) : List Cell :=
  [.str r.tsStr, .str r.timeStr, .rat r.avgCE, .rat r.avgPE,
   .real r.ceNorm, .real r.peNorm, .real r.diffNorm]

/-- Serialized form of the table (`show.to_csv(index=False)`): the header
line first, then one line per record, each cell in the same column order as
the in-memory table. -/
def serializeTable (rows : List OutRow) : List (List Cell) :=
  (outputColumns.map Cell.str) :: rows.map rowCells

/-- Column list asserted by the claim (eight columns, including a raw
difference column). -/
def claimedColumns : List String :=
  ["Timestamp", "Time", "Avg CE", "Avg PE", "CE−PE (raw)",
   "Norm CE", "Norm PE", "Norm Diff (CE−PE)"]

/-- Population mean stated from the spec text: sum over count. -/
noncomputable def specMeanR (vals : List ℚ) : ℝ :=
  (vals.map (fun (v : ℚ) => (v : ℝ))).sum / (vals.length : ℝ)

/-- Population standard deviation stated from the spec text: square root of
the mean of squared deviations, denominator = count (not count − 1). -/
noncomputable def specStdR (vals : List ℚ) : ℝ :=
  Real.sqrt ((vals.map (fun (v : ℚ) => ((v : ℝ) - specMeanR vals) ^ 2)).sum /
    (vals.length : ℝ))

/-- Normalizer stated from the spec text (claim C1): z-score each value
against the population mean and standard deviation; if the standard
deviation is zero the normalized value is an explicit undefined marker for
every record, never zero. -/
noncomputable def specNormalize (vals : List ℚ) : List (Option ℝ) :=
  if specStdR vals = 0 then vals.map (fun _ => none)
  else vals.map (fun (v : ℚ) => some (((v : ℝ) - specMeanR vals) / specStdR vals))

/-- Ranking relation the selector's output satisfies (amended claim C2):
defined-mean strikes first, in non-increasing order of mean open interest;
strikes whose whole group is NaN come last.  The relation deliberately
says nothing about the relative order of strikes with EQUAL means or
between two all-NaN groups: numpy quicksort is not stable, so the program
guarantees no tie order. -/
def rankLe (rows : List Row) (k1 k2 : ℚ) : Prop :=
  match meanOI rows k1, meanOI rows k2 with
  | some m1, some m2 => m2 ≤ m1
  | some _, none => True
  | none, none => True
  | none, some _ => False

/-- Mean stated from the spec text (claim C3): arithmetic mean over the
rows, ignoring individual missing values; if all values are missing the
average is undefined. -/
def specMean (xs : List (Option ℚ)) : Option ℚ :=
  match xs.filterMap id with
  | [] => none
  | vs => some (vs.sum / (vs.length : ℚ))

/-- Fixed wall-clock stub used by the concrete batches below (the value is
irrelevant whenever every filename parses). -/
def now0 : ℕ → DateTime := fun _ => ⟨2021, 6, 15, 9, 30, 0⟩

/-- Row with all four cells defined. -/
def fullRow (k oi ce pe : ℚ) : Row := ⟨some k, some oi, some ce, some pe⟩

/-- Reference frame of the spec's own selector example: strikes 100 (mean
OI 50), 200 and 300 (mean OI 80 each). -/
def frameC2 : Frame :=
  ⟨true, true, true, true, [fullRow 100 50 1 1, fullRow 200 80 1 1, fullRow 300 80 1 1]⟩

/-- Reference frame where strike 300 appears before strike 200 and both
have the same mean open interest. -/
def frameC2tie : Frame :=
  ⟨true, true, true, true, [fullRow 300 80 1 1, fullRow 200 80 1 1]⟩

/-- Snapshot whose strikes are all inside the reference set. -/
def fileP : InFile :=
  ⟨"chain_15062021_100000.csv", some ⟨true, true, true, true, [fullRow 100 50 10 4]⟩⟩

/-- Snapshot whose only strike (999) is outside the reference set derived
from `fileP`: its filtered subset is empty, so it is skipped. -/
def fileQ : InFile :=
  ⟨"chain_15062021_110000.csv", some ⟨true, true, true, true, [fullRow 999 50 3 2]⟩⟩

/-- Frame/timestamp fixture for the per-snapshot averaging theorem: two
rows inside the strike set (CE prices 10 and 12, one PE price missing) and
one outside. -/
def tfC3 : TFrame :=
  ⟨⟨true, true, true, true,
    [⟨some 100, some 50, some 10, some 4⟩, ⟨some 200, some 60, some 12, none⟩,
     ⟨some 999, some 70, some 5, some 5⟩]⟩, ⟨2021, 6, 15, 10, 0, 0⟩⟩

/-- Later capture uploaded first. -/
def fileD1 : InFile :=
  ⟨"chain_02011999_090000.csv", some ⟨true, true, true, true, [fullRow 100 50 8 3]⟩⟩

/-- Earlier capture uploaded second. -/
def fileD2 : InFile :=
  ⟨"chain_01011999_090000.csv", some ⟨true, true, true, true, [fullRow 100 50 6 2]⟩⟩

/-- Record list the batch `[fileD1, fileD2]` produces: sorted by timestamp,
not upload order. -/
def recsD : List AggRec :=
  [⟨⟨1999, 1, 1, 9, 0, 0⟩, some 6, some 2⟩, ⟨⟨1999, 1, 2, 9, 0, 0⟩, some 8, some 3⟩]

/-- Snapshot with the required columns present but every `CE_strikePrice`
cell NaN: the groupby yields no groups, so every snapshot is excluded. -/
def fileNaNStrike : InFile :=
  ⟨"chain_15062021_120000.csv", some ⟨true, true, true, true, [⟨none, some 5, some 1, some 1⟩]⟩⟩

/-- Upload whose bytes are empty or whitespace (`safe_read` returns
`None`). -/
def fileBlank : InFile := ⟨"blank.csv", none⟩

/-- Second upload whose bytes are empty. -/
def fileBlank2 : InFile := ⟨"empty2.csv", none⟩

/-- Well-formed snapshot used beside the blank one. -/
def fileG : InFile :=
  ⟨"chain_15062021_130000.csv", some ⟨true, true, true, true, [fullRow 100 50 9 7]⟩⟩

/-- Reference snapshot with all columns, used in the missing-price-column
batch. -/
def fileRef8 : InFile :=
  ⟨"chain_15062021_140000.csv", some ⟨true, true, true, true, [fullRow 100 50 10 4]⟩⟩

/-- Non-reference snapshot that lacks the `CE_lastPrice` column but shares
strike 100 with the reference set. -/
def fileNoCE : InFile :=
  ⟨"chain_15062021_150000.csv", some ⟨true, true, false, true, [⟨some 100, some 50, none, some 4⟩]⟩⟩

/-- Aggregate records fed to the normalizer witness: equal PE averages
(zero variance) and distinct CE averages. -/
def recsC1 : List AggRec :=
  [⟨⟨2021, 6, 15, 10, 0, 0⟩, some 10, some 7⟩, ⟨⟨2021, 6, 15, 11, 0, 0⟩, some 20, some 7⟩]

theorem distinctStrikes_sorted_lt (rows : List Row) :
    List.Pairwise (· < ·) (distinctStrikes rows) := by
  have hs : List.Sorted (· ≤ ·) (distinctStrikes rows) :=
    List.sorted_insertionSort (· ≤ ·) _
  have hnd : (distinctStrikes rows).Nodup :=
    ((List.perm_insertionSort (· ≤ ·) _).nodup_iff).mpr (List.nodup_dedup _)
  exact hs.lt_of_le hnd

theorem mem_distinctStrikes (rows : List Row) (k : ℚ) (h : k ∈ distinctStrikes rows) :
    ∃ r ∈ rows, r.ce_strike = some k := by
  unfold distinctStrikes at h
  have h2 := (List.perm_insertionSort (· ≤ ·) _).mem_iff.mp h
  rw [List.mem_dedup] at h2
  simpa [List.mem_filterMap] using h2

theorem groupMeans_keys_lt (rows : List Row) :
    List.Pairwise (fun a b => a.1 < b.1) (groupMeans rows) := by
  unfold groupMeans
  exact List.pairwise_map.mpr (distinctStrikes_sorted_lt rows)

theorem mem_groupMeans (rows : List Row) (p : ℚ × Option ℚ) (h : p ∈ groupMeans rows) :
    p.2 = meanOI rows p.1 ∧ p.1 ∈ distinctStrikes rows := by
  unfold groupMeans at h
  obtain ⟨k, hk, rfl⟩ := List.mem_map.mp h
  exact ⟨rfl, hk⟩

theorem mem_definedPart (rows : List Row) (pr : ℚ × ℚ) (h : pr ∈ definedPart rows) :
    meanOI rows pr.1 = some pr.2 ∧ pr.1 ∈ distinctStrikes rows := by
  unfold definedPart at h
  rw [List.mem_filterMap] at h
  obtain ⟨p, hp, hm⟩ := h
  rw [Option.map_eq_some'] at hm
  obtain ⟨m, hm2, rfl⟩ := hm
  obtain ⟨hmean, hmem⟩ := mem_groupMeans rows p hp
  exact ⟨hmean.symm.trans hm2, hmem⟩

theorem mem_undefPart (rows : List Row) (k : ℚ) (h : k ∈ undefPart rows) :
    meanOI rows k = none ∧ k ∈ distinctStrikes rows := by
  unfold undefPart at h
  obtain ⟨p, hp, rfl⟩ := List.mem_map.mp h
  have hp2 := List.mem_filter.mp hp
  obtain ⟨hmean, hmem⟩ := mem_groupMeans rows p hp2.1
  have hnone : p.2 = none := Option.isNone_iff_eq_none.mp (by simpa using hp2.2)
  exact ⟨hmean.symm.trans hnone, hmem⟩

theorem undefPart_keys_lt (rows : List Row) :
    List.Pairwise (· < ·) (undefPart rows) := by
  unfold undefPart
  exact List.pairwise_map.mpr ((groupMeans_keys_lt rows).filter _)

theorem length_filterMap_defined (l : List (ℚ × Option ℚ)) :
    (l.filterMap (fun p => p.2.map (fun m => (p.1, m)))).length +
      (l.filter (fun p => p.2.isNone)).length = l.length := by
  induction l with
  | nil => rfl
  | cons p t ih =>
    cases h : p.2 with
    | none =>
      simp only [List.filterMap_cons, List.filter_cons, h, Option.map_none', Option.isNone_none,
        if_true, List.length_cons]
      omega
    | some m =>
      simp only [List.filterMap_cons, List.filter_cons, h, Option.map_some', Option.isNone_some,
        List.length_cons]
      rw [if_neg (by simp)]
      omega

theorem definedPart_undefPart_length (rows : List Row) :
    (definedPart rows).length + (undefPart rows).length = (distinctStrikes rows).length := by
  unfold definedPart undefPart
  rw [List.length_map]
  have hl : (groupMeans rows).length = (distinctStrikes rows).length := by
    unfold groupMeans; rw [List.length_map]
  rw [← hl]
  exact length_filterMap_defined (groupMeans rows)

/-- C2 (amended): for a reference snapshot with the two required columns
and `n` in `[1, 20]`, the selector returns exactly
`min n (number of distinct strikes)` values, each a strike present in the
snapshot, with the defined-mean strike groups first in non-increasing
order of mean open interest and the all-NaN groups last.  The tie order
among strikes of equal mean open interest is unspecified (numpy quicksort
is not stable), and in particular NOT the first-seen order the original
claim describes: `groupby` reorders the groups by key ascending before the
sort, so first-appearance information is already gone (see the
counterexample below). -/
theorem top_strikes_spec (f : Frame) (n : ℕ)
    (_hstrike : f.hasStrike = true) (_hoi : f.hasOI = true)
    (_hn1 : 1 ≤ n) (_hn20 : n ≤ 20) :
    (top_strikes f n).length = min n (distinctStrikes f.rows).length ∧
    (∀ k ∈ top_strikes f n, ∃ r ∈ f.rows, r.ce_strike = some k) ∧
    List.Pairwise (rankLe f.rows) (top_strikes f n) := by
  refine ⟨?_, ?_, ?_⟩
  · unfold top_strikes
    rw [List.length_take, List.length_append, List.length_map,
      (List.perm_insertionSort oiGe (definedPart f.rows)).length_eq,
      definedPart_undefPart_length]
  · intro k hk
    have hk2 := List.mem_of_mem_take hk
    rcases List.mem_append.mp hk2 with hkl | hkr
    · obtain ⟨pr, hpr, rfl⟩ := List.mem_map.mp hkl
      exact mem_distinctStrikes _ _
        (mem_definedPart f.rows pr ((List.perm_insertionSort oiGe _).mem_iff.mp hpr)).2
    · exact mem_distinctStrikes _ _ (mem_undefPart f.rows k hkr).2
  · apply List.Pairwise.sublist (List.take_sublist n _)
    rw [List.pairwise_append]
    refine ⟨?_, ?_, ?_⟩
    · rw [List.pairwise_map]
      apply List.Pairwise.imp_of_mem ?_
        (List.sorted_insertionSort oiGe (definedPart f.rows))
      intro a b ha hb hab
      have ha2 := (mem_definedPart f.rows a
        ((List.perm_insertionSort oiGe _).mem_iff.mp ha)).1
      have hb2 := (mem_definedPart f.rows b
        ((List.perm_insertionSort oiGe _).mem_iff.mp hb)).1
      unfold rankLe
      rw [ha2, hb2]
      exact hab
    · apply List.Pairwise.imp_of_mem ?_ (undefPart_keys_lt f.rows)
      intro a b ha hb _
      have ha2 := (mem_undefPart f.rows a ha).1
      have hb2 := (mem_undefPart f.rows b hb).1
      unfold rankLe
      rw [ha2, hb2]
      trivial
    · intro a ha b hb
      obtain ⟨pr, hpr, rfl⟩ := List.mem_map.mp ha
      have ha2 := (mem_definedPart f.rows pr
        ((List.perm_insertionSort oiGe _).mem_iff.mp hpr)).1
      have hb2 := (mem_undefPart f.rows b hb).1
      unfold rankLe
      rw [ha2, hb2]
      trivial

/-- C2 counterexample: in `frameC2tie` strike 300 appears before strike
200 and both groups have mean open interest 80; the claim's first-seen
tie-break predicts `[300]` for `n = 1`, but the code returns `[200]`,
because `groupby` reorders the groups by key ascending before the sort.
With only two tied groups the program's behavior is definite: numpy's
introsort on an array this small is a single stable insertion-sort pass,
for which the embedding is exact. -/
theorem top_strikes_tiebreak_counterexample :
    top_strikes frameC2tie 1 = [200] ∧ top_strikes frameC2tie 1 ≠ [300] := by
  constructor
  · decide
  · decide

/-- C2 witness: the amended selector contract evaluated on the spec's own
example snapshot (strikes 100:50, 200:80, 300:80) with `n = 2`. -/
theorem top_strikes_spec_witness :
    (top_strikes frameC2 2).length = min 2 (distinctStrikes frameC2.rows).length ∧
    (∀ k ∈ top_strikes frameC2 2, ∃ r ∈ frameC2.rows, r.ce_strike = some k) ∧
    List.Pairwise (rankLe frameC2.rows) (top_strikes frameC2 2) :=
  top_strikes_spec frameC2 2 rfl rfl (by decide) (by decide)

/-- Timestamped frame produced from `fileRef8`. -/
def tfRef8 : TFrame := ⟨⟨true, true, true, true, [fullRow 100 50 10 4]⟩, ⟨2021, 6, 15, 14, 0, 0⟩⟩

/-- Timestamped frame produced from `fileNoCE`. -/
def tfNoCE : TFrame :=
  ⟨⟨true, true, false, true, [⟨some 100, some 50, none, some 4⟩]⟩, ⟨2021, 6, 15, 15, 0, 0⟩⟩

theorem loadFramesW_warnings (now : ℕ → DateTime) (i : ℕ) (files : List InFile) :
    (loadFramesW now i files).2 = [] := by
  induction files generalizing i with
  | nil => rfl
  | cons f fs ih =>
    simp only [loadFramesW]
    cases hc : f.content with
    | none => simpa using ih (i + 1)
    | some fr =>
      by_cases h : fr.rows.isEmpty
      · simp [h, ih (i + 1)]
      · simp [h, ih (i + 1)]

theorem summaryLoopW_warnings (frames : List TFrame) (strikes : List ℚ) :
    (summaryLoopW frames strikes).2 = [] := by
  induction frames with
  | nil => rfl
  | cons tf rest ih =>
    rw [summaryLoopW]
    cases processFrame tf strikes with
    | error e => rfl
    | ok o =>
      cases o with
      | none => exact ih
      | some r =>
        rcases hs : summaryLoopW rest strikes with ⟨a, w⟩
        rw [hs] at ih
        cases a <;> simpa using ih

theorem summaryLoopW_skip (tf : TFrame) (rest : List TFrame) (strikes : List ℚ)
    (h : processFrame tf strikes = .ok none) :
    summaryLoopW (tf :: rest) strikes = summaryLoopW rest strikes := by
  rw [summaryLoopW, h]

theorem processFrame_error (tf : TFrame) (strikes : List ℚ) (e : BatchError)
    (h : processFrame tf strikes = .error e) : e = .uncaught := by
  unfold processFrame at h
  split at h
  · split at h
    · simp at h
    · split at h
      · split at h
        · simp at h
        · exact (Except.error.inj h).symm
      · exact (Except.error.inj h).symm
  · exact (Except.error.inj h).symm

theorem summaryLoopW_error_of_mem (frames : List TFrame) (strikes : List ℚ) (tf : TFrame)
    (htf : tf ∈ frames) (e : BatchError) (h : processFrame tf strikes = .error e) :
    summaryLoopW frames strikes = (.error .uncaught, []) := by
  induction frames with
  | nil => cases htf
  | cons hd rest ih =>
    rcases List.mem_cons.mp htf with rfl | hmem
    · have he := processFrame_error _ _ _ h
      subst he
      rw [summaryLoopW, h]
    · cases hh : processFrame hd strikes with
      | error e' =>
        have he := processFrame_error _ _ _ hh
        subst he
        rw [summaryLoopW, hh]
      | ok o =>
        cases o with
        | none => rw [summaryLoopW, hh]; exact ih hmem
        | some r => rw [summaryLoopW, hh, ih hmem]

theorem nanmean_eq_specMean (xs : List (Option ℚ)) : nanmean xs = specMean xs := by
  unfold nanmean specMean definedVals
  cases h : xs.filterMap id with
  | nil => simp [h]
  | cons v t => simp [h]

/-- C3 (amended): with the three needed columns present, the summary step
filters a snapshot's rows to the reference strikes; an empty subset makes
the snapshot contribute no record — skipped silently (the `continue` emits
no warning), never fatal to the remaining snapshots — and otherwise the
record carries the timestamp and the per-side means over the subset,
skipping individually missing values and undefined when a whole side is
missing (`specMean`). -/
theorem aggregate_spec (tf : TFrame) (strikes : List ℚ) (rest : List TFrame)
    (h1 : tf.frame.hasStrike = true) (h2 : tf.frame.hasCELast = true)
    (h3 : tf.frame.hasPELast = true) :
    (subsetRows tf.frame.rows strikes = [] →
      processFrame tf strikes = .ok none ∧
      summaryLoopW (tf :: rest) strikes = summaryLoopW rest strikes) ∧
    (subsetRows tf.frame.rows strikes ≠ [] →
      processFrame tf strikes =
        .ok (some ⟨tf.ts, specMean ((subsetRows tf.frame.rows strikes).map (·.ce_last)),
          specMean ((subsetRows tf.frame.rows strikes).map (·.pe_last))⟩)) := by
  constructor
  · intro hsub
    have hp : processFrame tf strikes = .ok none := by
      unfold processFrame
      simp [h1, hsub]
    exact ⟨hp, summaryLoopW_skip tf rest strikes hp⟩
  · intro hsub
    unfold processFrame
    simp [h1, h2, h3, hsub, nanmean_eq_specMean]

/-- C3 counterexample: the batch `[fileP, fileQ]` excludes `fileQ` (its
only strike, 999, is not a reference strike), yet the result records no
warning for it — the warning list is empty — so the claim's "reported"
part is false; the exclusion is still non-fatal (the other record is
produced). -/
theorem skipped_snapshot_unreported :
    runPipeline now0 6 [fileP, fileQ] =
      (.ok [⟨⟨2021, 6, 15, 10, 0, 0⟩, some 10, some 4⟩], []) := by
  decide

/-- C3 witness: the averaging contract instantiated on `tfC3` with strike
set `[100, 200]`. -/
theorem aggregate_spec_witness :
    (subsetRows tfC3.frame.rows [100, 200] = [] →
      processFrame tfC3 [100, 200] = .ok none ∧
      summaryLoopW [tfC3] [100, 200] = summaryLoopW [] [100, 200]) ∧
    (subsetRows tfC3.frame.rows [100, 200] ≠ [] →
      processFrame tfC3 [100, 200] =
        .ok (some ⟨tfC3.ts, specMean ((subsetRows tfC3.frame.rows [100, 200]).map (·.ce_last)),
          specMean ((subsetRows tfC3.frame.rows [100, 200]).map (·.pe_last))⟩)) :=
  aggregate_spec tfC3 [100, 200] [] rfl rfl rfl

theorem loadFramesW_frames_indep (now : ℕ → DateTime) (files : List InFile) (i j : ℕ) :
    (loadFramesW now i files).1.map (·.frame) = (loadFramesW now j files).1.map (·.frame) := by
  induction files generalizing i j with
  | nil => rfl
  | cons f fs ih =>
    simp only [loadFramesW]
    cases hc : f.content with
    | none => simpa using ih (i + 1) (j + 1)
    | some fr =>
      by_cases h : fr.rows.isEmpty
      · simp [h, ih (i + 1) (j + 1)]
      · simp [h, ih (i + 1) (j + 1)]

/-- C7 (amended): a file rejected by `safe_read` or the emptiness test is
skipped SILENTLY — the loading loop records no warning at all, for any
input — and the skip is never fatal: the frames loaded from the other
files are exactly those loaded when the bad file is absent (their fallback
wall-clock samples may shift, the parsed content never does). -/
theorem load_skip_silent_nonfatal (now : ℕ → DateTime) (i : ℕ) (xs ys : List InFile)
    (bad : InFile) (h : keepsFile bad = false) :
    (loadFramesW now i (xs ++ bad :: ys)).2 = [] ∧
    (loadFramesW now i (xs ++ bad :: ys)).1.map (·.frame) =
      (loadFramesW now i (xs ++ ys)).1.map (·.frame) := by
  refine ⟨loadFramesW_warnings now i _, ?_⟩
  induction xs generalizing i with
  | nil =>
    simp only [List.nil_append, loadFramesW]
    unfold keepsFile at h
    cases hc : bad.content with
    | none => simpa using loadFramesW_frames_indep now ys (i + 1) i
    | some fr =>
      rw [hc] at h
      have hrow : fr.rows.isEmpty = true := by simpa using h
      simp only [hrow, if_true]
      exact loadFramesW_frames_indep now ys (i + 1) i
  | cons x xt ih =>
    simp only [List.cons_append, loadFramesW]
    cases hc : x.content with
    | none => exact ih (i + 1)
    | some fr =>
      by_cases hrow : fr.rows.isEmpty
      · simp [hrow, ih (i + 1)]
      · simp [hrow, ih (i + 1)]

/-- C7 counterexample: the blank upload in `[fileBlank, fileG]` is skipped
and the batch succeeds on the remaining file, but the warning list is
empty — no warning associated with `"blank.csv"` is recorded or surfaced,
contradicting the claim. -/
theorem blank_file_skip_unreported :
    runPipeline now0 6 [fileBlank, fileG] =
      (.ok [⟨⟨2021, 6, 15, 13, 0, 0⟩, some 9, some 7⟩], []) := by
  decide

/-- C7 witness: the silent-skip contract applied to the blank file sitting
before `fileG`. -/
theorem load_skip_silent_nonfatal_witness :
    (loadFramesW now0 0 ([] ++ fileBlank :: [fileG])).2 = [] ∧
    (loadFramesW now0 0 ([] ++ fileBlank :: [fileG])).1.map (·.frame) =
      (loadFramesW now0 0 ([] ++ [fileG])).1.map (·.frame) :=
  load_skip_silent_nonfatal now0 0 [] [fileG] fileBlank (by decide)

theorem loadFramesW_all_none (now : ℕ → DateTime) (i : ℕ) (files : List InFile)
    (h : ∀ f ∈ files, f.content = none) : loadFramesW now i files = ([], []) := by
  induction files generalizing i with
  | nil => rfl
  | cons f fs ih =>
    simp only [loadFramesW]
    rw [h f (by simp)]
    exact ih (i + 1) (fun g hg => h g (by simp [hg]))

/-- C6 (amended): a batch with no valid file (in particular, one whose
uploads are all empty) aborts with the descriptive error
"No valid CSV data found."; a reference snapshot lacking `CE_strikePrice`
or `CE_openInterest` aborts with the descriptive error
"Missing expected columns in CSV."; but when every snapshot is excluded
and zero records remain, the abort is an UNCAUGHT exception
(`pd.DataFrame([]).sort_values("timestamp")` raises `KeyError`), which
carries no descriptive message.  In all three cases no output is
produced. -/
theorem batch_fatal_amended (now : ℕ → DateTime) (n : ℕ) (files : List InFile) :
    ((∀ f ∈ files, f.content = none) → runPipeline now n files = (.error .noValidData, [])) ∧
    ((loadFramesW now 0 files).1 = [] → runPipeline now n files = (.error .noValidData, [])) ∧
    (∀ tf rest, (loadFramesW now 0 files).1 = tf :: rest →
      (tf.frame.hasStrike && tf.frame.hasOI) = false →
      runPipeline now n files = (.error .missingColumns, [])) ∧
    (∀ tf rest, (loadFramesW now 0 files).1 = tf :: rest →
      (tf.frame.hasStrike && tf.frame.hasOI) = true →
      (summaryLoopW (tf :: rest) (top_strikes tf.frame n)).1 = .ok [] →
      runPipeline now n files = (.error .uncaught, [])) ∧
    BatchError.message .uncaught = none := by
  have hw := loadFramesW_warnings now 0 files
  have hempty : ((loadFramesW now 0 files).1 = [] →
      runPipeline now n files = (.error .noValidData, [])) := by
    intro h
    unfold runPipeline
    rw [h, hw]
  refine ⟨?_, hempty, ?_, ?_, rfl⟩
  · intro h
    exact hempty (by rw [loadFramesW_all_none now 0 files h])
  · intro tf rest h hcols
    unfold runPipeline
    rw [h, hw]
    simp [hcols]
  · intro tf rest h hcols hsum
    unfold runPipeline
    rw [h, hw]
    have hpair : summaryLoopW (tf :: rest) (top_strikes tf.frame n) = (.ok [], []) := by
      have h2 := summaryLoopW_warnings (tf :: rest) (top_strikes tf.frame n)
      rcases hp : summaryLoopW (tf :: rest) (top_strikes tf.frame n) with ⟨a, w⟩
      rw [hp] at hsum h2
      simp at hsum h2
      rw [hsum, h2]
    simp only [hcols, if_true, hpair, List.nil_append]

/-- C6 counterexample: `fileNaNStrike` has the required columns and a row,
but its every `CE_strikePrice` is NaN, so the strike list is empty, every
snapshot is excluded and zero records remain; the batch then aborts via
the uncaught `KeyError` — an error with no descriptive message — while the
claim promises a single descriptive error for this case. -/
theorem zero_records_uncaught_crash :
    runPipeline now0 6 [fileNaNStrike] = (.error .uncaught, []) ∧
    BatchError.message .uncaught = none ∧
    (BatchError.message .noValidData).isSome = true := by
  refine ⟨by decide, rfl, rfl⟩

/-- C8 (amended): when a non-reference snapshot lacks `CE_lastPrice` or
`PE_lastPrice` and its strike-filtered subset is nonempty, the whole batch
aborts with an uncaught `KeyError` (no output, no NaN propagation); a NaN
average is produced only when the column exists.  (A snapshot whose subset
is empty is skipped before the price columns are touched.) -/
theorem missing_price_column_aborts (now : ℕ → DateTime) (n : ℕ) (files : List InFile)
    (first : TFrame) (rest : List TFrame) (tf : TFrame)
    (hload : (loadFramesW now 0 files).1 = first :: rest)
    (hcols : (first.frame.hasStrike && first.frame.hasOI) = true)
    (htf : tf ∈ first :: rest)
    (hstrike : tf.frame.hasStrike = true)
    (hsub : subsetRows tf.frame.rows (top_strikes first.frame n) ≠ [])
    (hmiss : tf.frame.hasCELast = false ∨ tf.frame.hasPELast = false) :
    runPipeline now n files = (.error .uncaught, []) := by
  have hpf : processFrame tf (top_strikes first.frame n) = .error .uncaught := by
    unfold processFrame
    rw [if_pos hstrike]
    rw [if_neg (by simpa [List.isEmpty_iff] using hsub)]
    rcases hmiss with hm | hm
    · rw [hm]
      simp
    · rw [hm]
      by_cases hce : tf.frame.hasCELast = true
      · simp [hce]
      · simp [hce]
  have hsum := summaryLoopW_error_of_mem (first :: rest) (top_strikes first.frame n) tf htf
    .uncaught hpf
  unfold runPipeline
  rw [hload, loadFramesW_warnings]
  simp only [hcols, if_true, hsum, List.nil_append]

/-- C8 counterexample: in `[fileRef8, fileNoCE]` the second snapshot lacks
`CE_lastPrice` while sharing strike 100 with the reference set; the claim
predicts a record with an undefined CE average and no abort, but the batch
aborts with the uncaught `KeyError`. -/
theorem missing_price_crash_counterexample :
    runPipeline now0 6 [fileRef8, fileNoCE] = (.error .uncaught, []) := by
  decide

/-- C8 witness: the abort contract applied to the concrete batch
`[fileRef8, fileNoCE]`. -/
theorem missing_price_column_aborts_witness :
    runPipeline now0 6 [fileRef8, fileNoCE] = (.error .uncaught, []) :=
  missing_price_column_aborts now0 6 [fileRef8, fileNoCE] tfRef8 [tfNoCE] tfNoCE
    (by decide) (by decide) (by decide) (by decide) (by decide) (by decide)

theorem pipeline_ok_sorted (now : ℕ → DateTime) (n : ℕ) (files : List InFile)
    (recs : List AggRec) (h : (runPipeline now n files).1 = .ok recs) :
    ∃ l, recs = List.insertionSort recLe l := by
  unfold runPipeline at h
  cases hld : (loadFramesW now 0 files).1 with
  | nil => rw [hld] at h; simp at h
  | cons first rest =>
    rw [hld] at h
    by_cases hcols : (first.frame.hasStrike && first.frame.hasOI) = true
    · simp only [hcols, if_true] at h
      rcases hs : summaryLoopW (first :: rest) (top_strikes first.frame n) with ⟨a, w⟩
      rw [hs] at h
      cases a with
      | error e => simp at h
      | ok recs' =>
        cases recs' with
        | nil => simp at h
        | cons r rt =>
          refine ⟨r :: rt, ?_⟩
          simpa using (Except.ok.inj h).symm
    · simp only [hcols] at h
      simp at h

/-- C4 (confirmed): whenever the batch succeeds — in particular when every
filename parses, so that no nondeterministic wall-clock fallback enters —
the resulting record Series is sorted non-decreasing by timestamp
(upload order is irrelevant), and the assembled display table keeps
exactly that timestamp order. -/
theorem series_sorted (now : ℕ → DateTime) (n : ℕ) (files : List InFile) (recs : List AggRec)
    (_hparse : ∀ f ∈ files, (extract_timestamp f.name).isSome = true)
    (hok : (runPipeline now n files).1 = .ok recs) :
    List.Pairwise recLe recs ∧ (assembleRows recs).map (·.ts) = recs.map (·.ts) := by
  obtain ⟨l, rfl⟩ := pipeline_ok_sorted now n files recs hok
  refine ⟨List.sorted_insertionSort recLe l, ?_⟩
  unfold assembleRows
  rw [List.map_map]
  rfl

/-- C4 witness: the batch `[fileD1, fileD2]` uploads the later capture
first; the pipeline still emits `recsD`, sorted ascending by timestamp. -/
theorem series_sorted_witness :
    List.Pairwise recLe recsD ∧ (assembleRows recsD).map (·.ts) = recsD.map (·.ts) :=
  series_sorted now0 6 [fileD1, fileD2] recsD (by decide) (by decide)

/-- C9 counterexample: the output table has seven columns; there is no raw
`CE−PE (raw)` column at all (the code never computes `avg_ce - avg_pe`
unnormalized), so the eight-column schema of the claim is false.  (The
actual headers also use narrow no-break spaces and a non-breaking
hyphen.) -/
theorem output_columns_counterexample :
    outputColumns ≠ claimedColumns ∧ "CE−PE (raw)" ∉ outputColumns ∧
    outputColumns.length = 7 ∧ claimedColumns.length = 8 := by
  refine ⟨by decide, by decide, by decide, by decide⟩

/-- C9 (amended): records carry no raw difference field; the output table
has exactly the seven columns Timestamp, Time, Avg CE, Avg PE, Norm CE,
Norm PE, Norm Diff (CE‑PE) — with U+202F narrow no-break spaces and a
U+2011 non-breaking hyphen as in the source — and the serialized form is
the header row followed by one row per record with cells in exactly the
in-memory column order. -/
theorem output_schema_amended (rows : List OutRow) (r : OutRow) :
    outputColumns = ["Timestamp", "Time", "Avg\u202FCE", "Avg\u202FPE", "Norm\u202FCE",
      "Norm\u202FPE", "Norm\u202FDiff\u202F(CE\u2011PE)"] ∧
    serializeTable rows = (outputColumns.map Cell.str) :: rows.map rowCells ∧
    (rowCells r).length = outputColumns.length ∧
    (serializeTable rows).length = rows.length + 1 := by
  refine ⟨by decide, rfl, rfl, by simp [serializeTable]⟩

theorem definedVals_map_some (vals : List ℚ) : definedVals (vals.map some) = vals := by
  unfold definedVals
  induction vals with
  | nil => rfl
  | cons v t ih => simp [ih]

theorem eq_map_some_of_all_isSome (xs : List (Option ℚ)) (h : ∀ x ∈ xs, x.isSome = true) :
    xs = (definedVals xs).map some := by
  induction xs with
  | nil => rfl
  | cons x t ih =>
    cases x with
    | none => simpa using h none (by simp)
    | some v =>
      have ht := ih (fun y hy => h y (List.mem_cons_of_mem _ hy))
      unfold definedVals at *
      simp only [List.filterMap_cons, id, List.map_cons]
      exact congrArg (some v :: ·) ht

theorem cast_list_sum (l : List ℚ) :
    ((l.sum : ℚ) : ℝ) = (l.map (fun (v : ℚ) => (v : ℝ))).sum := by
  induction l with
  | nil => simp
  | cons a t ih => simp [ih]

theorem znormSeries_map_some (vals : List ℚ) :
    znormSeries (vals.map some) = specNormalize vals := by
  cases hv : vals with
  | nil =>
    unfold znormSeries specNormalize
    split <;> rfl
  | cons v0 vt =>
    have hvne : vals ≠ [] := by rw [hv]; simp
    have hd : definedVals (vals.map some) = vals := definedVals_map_some vals
    have hmean : nanmean (vals.map some) = some (vals.sum / (vals.length : ℚ)) := by
      unfold nanmean
      rw [hd, if_neg hvne]
    have hmeancast : ((vals.sum / (vals.length : ℚ) : ℚ) : ℝ) = specMeanR vals := by
      unfold specMeanR
      rw [Rat.cast_div, cast_list_sum]
      norm_cast
    have hsubcast : ∀ v : ℚ,
        ((v - vals.sum / (vals.length : ℚ) : ℚ) : ℝ) = (v : ℝ) - specMeanR vals := by
      intro v
      rw [Rat.cast_sub, hmeancast]
    have hvar : nanvar (vals.map some) =
        some ((vals.map (fun v => (v - vals.sum / (vals.length : ℚ)) ^ 2)).sum /
          (vals.length : ℚ)) := by
      unfold nanvar
      rw [hmean, hd]
    have hstdcast :
        Real.sqrt (((vals.map (fun v => (v - vals.sum / (vals.length : ℚ)) ^ 2)).sum /
          (vals.length : ℚ) : ℚ) : ℝ) = specStdR vals := by
      unfold specStdR
      have hmaps : ((vals.map (fun v => (v - vals.sum / (vals.length : ℚ)) ^ 2)).map
            (fun (q : ℚ) => (q : ℝ))) =
          vals.map (fun (v : ℚ) => ((v : ℝ) - specMeanR vals) ^ 2) := by
        rw [List.map_map]
        apply List.map_congr_left
        intro v _
        simp only [Function.comp_apply]
        rw [Rat.cast_pow, Rat.cast_sub, hmeancast]
      rw [Rat.cast_div, cast_list_sum, hmaps]
      norm_cast
    have hstd : nanstd (vals.map some) = some (specStdR vals) := by
      unfold nanstd
      rw [hvar]
      show some (Real.sqrt (((vals.map (fun v => (v - vals.sum / (vals.length : ℚ)) ^ 2)).sum /
        (vals.length : ℚ) : ℚ) : ℝ)) = some (specStdR vals)
      rw [hstdcast]
    rw [← hv]
    by_cases hs : specStdR vals = 0
    · have hval : ∀ v : ℚ, znormValue (vals.map some) (some v) = none := by
        intro v
        unfold znormValue
        rw [hmean, hstd]
        simp [hs]
      unfold znormSeries specNormalize
      rw [if_pos hs, List.map_map]
      apply List.map_congr_left
      intro v _
      exact hval v
    · have hval : ∀ v : ℚ, znormValue (vals.map some) (some v) =
          some (((v : ℝ) - specMeanR vals) / specStdR vals) := by
        intro v
        unfold znormValue
        rw [hmean, hstd]
        simp only [hs, if_false]
        rw [hsubcast v]
      unfold znormSeries specNormalize
      rw [if_neg hs, List.map_map]
      apply List.map_congr_left
      intro v _
      exact hval v

theorem zipWith_psubR_maps (l : List OutRow)
    (h : ∀ r ∈ l, r.diffNorm = psubR r.ceNorm r.peNorm) :
    l.map (·.diffNorm) = List.zipWith psubR (l.map (·.ceNorm)) (l.map (·.peNorm)) := by
  induction l with
  | nil => rfl
  | cons r t ih =>
    simp only [List.map_cons, List.zipWith_cons_cons]
    rw [h r (by simp), ih (fun y hy => h y (List.mem_cons_of_mem _ hy))]

/-- C1 (confirmed, for series whose averages are all defined as in the
claim's reading of "over all records"): the code's normalized column is
exactly the spec's z-scoring — population mean, population standard
deviation with denominator = count, `(x − mean) / std` — and when that
standard deviation is zero the normalized value is the undefined marker
for every record, never a zero; moreover the normalized difference column
is computed elementwise as `ce_norm - pe_norm`, with NaN propagation. -/
theorem normalizer_matches_spec (xs : List (Option ℚ)) (recs : List AggRec)
    (h : ∀ x ∈ xs, x.isSome = true) :
    znormSeries xs = specNormalize (definedVals xs) ∧
    (assembleRows recs).map (·.diffNorm) =
      List.zipWith psubR ((assembleRows recs).map (·.ceNorm))
        ((assembleRows recs).map (·.peNorm)) := by
  constructor
  · calc znormSeries xs = znormSeries ((definedVals xs).map some) := by
          rw [← eq_map_some_of_all_isSome xs h]
      _ = specNormalize (definedVals xs) := znormSeries_map_some _
  · apply zipWith_psubR_maps
    intro r hr
    unfold assembleRows at hr
    obtain ⟨x, _, rfl⟩ := List.mem_map.mp hr
    rfl

/-- C1 witness: the normalizer contract on the series `[10, 20]`
(variance 25, standard deviation 5) and on the records `recsC1`, whose PE
side has zero variance. -/
theorem normalizer_matches_spec_witness :
    znormSeries [some 10, some 20] = specNormalize (definedVals [some 10, some 20]) ∧
    (assembleRows recsC1).map (·.diffNorm) =
      List.zipWith psubR ((assembleRows recsC1).map (·.ceNorm))
        ((assembleRows recsC1).map (·.peNorm)) :=
  normalizer_matches_spec [some 10, some 20] recsC1 (by decide)

/-- C10 (confirmed): the normalization statistics skip NaN entries — the
mean and standard deviation of a column equal those of the column with the
undefined entries removed — a record with an undefined average receives an
undefined normalized value, the elementwise difference of an undefined
normalized value is undefined, and a defined record's normalized value is
exactly the one obtained as if the undefined records were absent. -/
theorem znorm_nan_skipped (xs : List (Option ℚ)) (v : ℚ) (y : Option ℝ) :
    znormValue xs none = none ∧
    psubR none y = none ∧
    psubR y none = none ∧
    nanmean xs = nanmean ((definedVals xs).map some) ∧
    nanstd xs = nanstd ((definedVals xs).map some) ∧
    znormValue xs (some v) = znormValue ((definedVals xs).map some) (some v) := by
  have hd : definedVals ((definedVals xs).map some) = definedVals xs := definedVals_map_some _
  have hm : nanmean xs = nanmean ((definedVals xs).map some) := by
    unfold nanmean
    rw [hd]
  have hvar : nanvar xs = nanvar ((definedVals xs).map some) := by
    unfold nanvar
    rw [hd, ← hm]
  have hs : nanstd xs = nanstd ((definedVals xs).map some) := by
    unfold nanstd
    rw [hvar]
  refine ⟨rfl, ?_, ?_, hm, hs, ?_⟩
  · cases y <;> rfl
  · cases y <;> rfl
  · unfold znormValue
    rw [hm, hs]

theorem sum_sq_nonneg (l : List ℚ) : 0 ≤ (l.map (fun v => v ^ 2)).sum := by
  induction l with
  | nil => simp
  | cons a t ih =>
    simp only [List.map_cons, List.sum_cons]
    nlinarith [sq_nonneg a]

theorem sq_sum_eq_zero {l : List ℚ} (h : (l.map (fun v => v ^ 2)).sum = 0) :
    ∀ v ∈ l, v = 0 := by
  induction l with
  | nil => simp
  | cons a t ih =>
    simp only [List.map_cons, List.sum_cons] at h
    have ht0 : 0 ≤ (t.map (fun v => v ^ 2)).sum := sum_sq_nonneg t
    have ha : a ^ 2 = 0 := by nlinarith [sq_nonneg a]
    intro v hv
    rcases List.mem_cons.mp hv with rfl | hv'
    · exact pow_eq_zero_iff (by norm_num) |>.mp ha
    · exact ih (by nlinarith [sq_nonneg a]) v hv'

/-- Justification for modelling the zero-divisor branch of `znormValue` as
NaN: when the population standard deviation of a column is zero, every
defined value of the column equals the mean, so the IEEE quotient the code
computes there is exactly 0/0. -/
theorem definedVals_eq_mean_of_nanstd_zero (xs : List (Option ℚ)) (m : ℚ)
    (hm : nanmean xs = some m) (hs : nanstd xs = some 0) :
    ∀ v ∈ definedVals xs, v = m := by
  unfold nanstd at hs
  cases hq : nanvar xs with
  | none =>
    rw [hq] at hs
    exact Option.noConfusion (show (none : Option ℝ) = some 0 from hs)
  | some q =>
    rw [hq] at hs
    have hsq : Real.sqrt (q : ℝ) = 0 :=
      Option.some.inj (show some (Real.sqrt (q : ℝ)) = some 0 from hs)
    have hqle : (q : ℝ) ≤ 0 := Real.sqrt_eq_zero'.mp hsq
    have hq0 : q ≤ 0 := by exact_mod_cast hqle
    unfold nanvar at hq
    rw [hm] at hq
    have hqval : q = ((definedVals xs).map (fun v => (v - m) ^ 2)).sum /
        ((definedVals xs).length : ℚ) := (Option.some.inj hq).symm
    have hsum0 : ((definedVals xs).map (fun v => (v - m) ^ 2)).sum = 0 := by
      have hnn : 0 ≤ ((definedVals xs).map (fun v => (v - m) ^ 2)).sum := by
        have := sum_sq_nonneg ((definedVals xs).map (fun v => v - m))
        rw [List.map_map] at this
        simpa using this
      have hlen : (0 : ℚ) ≤ ((definedVals xs).length : ℚ) := by positivity
      by_cases hl : ((definedVals xs).length : ℚ) = 0
      · unfold nanmean at hm
        by_cases hd : definedVals xs = []
        · rw [if_pos hd] at hm; simp at hm
        · have : (definedVals xs).length ≠ 0 := by
            simpa [List.length_eq_zero] using hd
          exact absurd (by exact_mod_cast hl) this
      · have hq0' : ((definedVals xs).map (fun v => (v - m) ^ 2)).sum /
            ((definedVals xs).length : ℚ) ≤ 0 := hqval ▸ hq0
        have := div_nonneg hnn hlen
        have heq : ((definedVals xs).map (fun v => (v - m) ^ 2)).sum /
            ((definedVals xs).length : ℚ) = 0 := le_antisymm hq0' this
        field_simp at heq
        exact heq
    intro v hv
    have := sq_sum_eq_zero (l := (definedVals xs).map (fun v => v - m)) (by
      rw [List.map_map]; simpa using hsum0) (v - m) (List.mem_map.mpr ⟨v, hv, rfl⟩)
    linarith [this]
